import Mathlib

/-! Module overview: Page Summariser Extension — verification of the
summarization core.

Shallow embedding of `src/background/service-worker.js` (the summarization
orchestration engine of the Page_Summariser_Extension repository), together
with proofs and refutations of the frozen specification claims.

Modelling conventions:
* JavaScript strings are modelled as `String` (model identifiers, messages)
  or `List Char` (page text fed to the chunk splitter), with explicit helper
  functions mirroring `trim`, `lastIndexOf`, `split`, `includes`.
* The network (`fetch` in `makeApiRequest`) is abstracted as an oracle
  mapping a model id to either a summary or a thrown error value; the error
  value carries exactly the fields the orchestrator inspects
  (`message`, `isRateLimited`), as produced by `handleApiError`.
* `chrome.storage` persistence is out of scope: the in-memory globals
  `exhaustedModels` / `lastResetDate` become an explicit `SWState` record
  threaded through the functions that mutate it.
* `new Date().toUTCString().split(' ').slice(0, 4).join(' ')` (the UTC day
  stamp) is an uninterpreted `String` parameter `now`, fixed for one invocation.
-/

namespace PageSummariser

/-- JavaScript whitespace test used by `String.prototype.trim` (ASCII subset:
space, tab, LF, CR, VT, FF — the only characters relevant to this code base). -/
def isWs (c : Char) : Bool :=
  c = ' ' || c = '\t' || c = '\n' || c = '\r' || c = Char.ofNat 11 || c = Char.ofNat 12

/-- JavaScript `s.trim()`: drop trailing whitespace, then leading whitespace. -/
def trimList (l : List Char) : List Char :=
  ((l.reverse.dropWhile isWs).reverse).dropWhile isWs

/-- A list made entirely of whitespace characters. -/
def allWs (l : List Char) : Prop := ∀ c ∈ l, isWs c = true

instance (l : List Char) : Decidable (allWs l) := by
  unfold allWs; infer_instance

/-- Test that `pat` occurs at the start of `s` (JavaScript `s.startsWith(pat)`). -/
def startsWithL : List Char → List Char → Bool
  | [], _ => true
  | _ :: _, [] => false
  | p :: ps, c :: cs => p == c && startsWithL ps cs

/-- JavaScript `s.includes(pat)`: `pat` occurs contiguously in `s`. -/
def containsSub (pat : List Char) : List Char → Bool
  | [] => startsWithL pat []
  | c :: rest => startsWithL pat (c :: rest) || containsSub pat rest

/-- JavaScript `s.includes(pat)` on `String`s. -/
def containsStr (pat s : String) : Bool := containsSub pat.toList s.toList

/-- JavaScript `s.endsWith(suffix)`. -/
def endsWithStr (suffix s : String) : Bool :=
  startsWithL suffix.toList.reverse s.toList.reverse

/-- JavaScript `s.split(sep)` for a one-character separator. -/
def splitOnChar (sep : Char) : List Char → List (List Char)
  | [] => [[]]
  | c :: cs =>
    let r := splitOnChar sep cs
    if c = sep then [] :: r
    else
      match r with
      | [] => [[c]]
      | x :: xs => (c :: x) :: xs

/-- JavaScript `s.charAt(0).toUpperCase() + s.slice(1)`. -/
def capitalizeStr (s : String) : String :=
  match s.toList with
  | [] => ""
  | c :: rest => String.mk (c.toUpper :: rest)

/-- JavaScript `s.lastIndexOf(pat)` for a two-character pattern `[a, b]`:
largest index where the pattern starts, or `-1`. -/
def lastIndexOf2 : List Char → Char → Char → Int
  | [], _, _ => -1
  | [_], _, _ => -1
  | x :: y :: rest, a, b =>
    let r := lastIndexOf2 (y :: rest) a b
    if r ≥ 0 then r + 1
    else if x = a ∧ y = b then 0 else -1

/-- JavaScript `s.lastIndexOf(c)` for a single character: largest index, or `-1`. -/
def lastIndexOfChar : List Char → Char → Int
  | [], _ => -1
  | x :: rest, a =>
    let r := lastIndexOfChar rest a
    if r ≥ 0 then r + 1
    else if x = a then 0 else -1

/-- Break-point computation of `splitIntoChunks` (service-worker.js:344-363).
`chunk` is the budget-sized window `remaining.substring(0, chunkSize)`.
`2 * i > chunkSize` is the integer form of JavaScript's `i > chunkSize * 0.5`. -/
def breakPointOf (chunk : List Char) (chunkSize : Nat) : Nat :=
  let lastPeriod : Int :=
    max (max (max (max (lastIndexOf2 chunk '.' ' ') (lastIndexOf2 chunk '!' ' '))
      (lastIndexOf2 chunk '?' ' ')) (lastIndexOf2 chunk '.' '\n'))
      (lastIndexOf2 chunk '\n' '\n')
  if 2 * lastPeriod > (chunkSize : Int) then (lastPeriod + 1).toNat
  else
    let lastSpace := lastIndexOfChar chunk ' '
    if 2 * lastSpace > (chunkSize : Int) then (lastSpace + 1).toNat
    else chunkSize

/-- The `while (remaining.length > 0)` loop of `splitIntoChunks`
(service-worker.js:338-367), written with explicit fuel: one unit of fuel per
loop iteration.  With `chunkSize = 0` the JavaScript loop does not terminate
(the break point degenerates to `0`); exhausted fuel models that divergence.
For `chunkSize ≥ 1` the fuel used by the wrapper below is proven sufficient. -/
def splitLoop : Nat → List Char → Nat → List (List Char)
  | 0, _, _ => []
  | fuel + 1, remaining, chunkSize =>
    if remaining.length = 0 then []
    else if remaining.length ≤ chunkSize then [trimList remaining]
    else
      let bp := breakPointOf (remaining.take chunkSize) chunkSize
      trimList (remaining.take bp) :: splitLoop fuel (trimList (remaining.drop bp)) chunkSize

/-- Function `splitIntoChunks(text, chunkSize)` (service-worker.js:334-371). -/
def splitIntoChunks (text : List Char) (chunkSize : Nat) : List (List Char) :=
  splitLoop (text.length + 1) text chunkSize

/-- Predicate `glues t chunks`: holds when `t` is exactly the chunks in order, interleaved
with (possibly empty) runs of whitespace: `t = w₀ ++ c₀ ++ w₁ ++ c₁ ++ ⋯ ++ wₙ`.
This is the "concatenation re-inserting the boundary whitespace removed by
trimming reproduces the original text" invariant. -/
def glues : List Char → List (List Char) → Prop
  | t, [] => allWs t
  | t, c :: cs => ∃ w rest, allWs w ∧ t = w ++ c ++ rest ∧ glues rest cs

/-! Section: Model registry and exhaustion tracker (service-worker.js:21-143) -/

/-- Catalogue `FREE_MODELS` (service-worker.js:21-27): the free catalogue, in preference order. -/
def FREE_MODELS : List String :=
  ["google/gemini-2.0-flash-exp:free",
   "meta-llama/llama-3.3-70b-instruct:free",
   "deepseek/deepseek-r1:free",
   "qwen/qwen-2.5-coder-32b-instruct:free",
   "cognitivecomputations/dolphin-mistral-24b-venice-edition:free"]

/-- One `MODEL_INFO` catalogue entry: display name, context label, provider. -/
structure ModelMeta where
  name : String
  context : String
  provider : String
deriving DecidableEq

/-- Catalogue `MODEL_INFO` (service-worker.js:34-45). -/
def MODEL_INFO : List (String × ModelMeta) :=
  [("google/gemini-2.0-flash-exp:free", ⟨"Gemini 2.0 Flash", "1M tokens", "Google"⟩),
   ("meta-llama/llama-3.3-70b-instruct:free", ⟨"Llama 3.3 70B", "128K tokens", "Meta"⟩),
   ("deepseek/deepseek-r1:free", ⟨"DeepSeek R1", "128K tokens", "DeepSeek"⟩),
   ("qwen/qwen-2.5-coder-32b-instruct:free", ⟨"Qwen 2.5 Coder 32B", "32K tokens", "Alibaba"⟩),
   ("cognitivecomputations/dolphin-mistral-24b-venice-edition:free",
      ⟨"Dolphin Mistral 24B", "32K tokens", "Cognitive Computations"⟩),
   ("openai/gpt-3.5-turbo", ⟨"GPT-3.5 Turbo", "16K tokens", "OpenAI"⟩),
   ("openai/gpt-4o-mini", ⟨"GPT-4o Mini", "128K tokens", "OpenAI"⟩),
   ("anthropic/claude-3-haiku", ⟨"Claude 3 Haiku", "200K tokens", "Anthropic"⟩)]

/-- Result of `getModelInfo` (service-worker.js:129-143). -/
structure ModelInfo where
  id : String
  name : String
  context : String
  provider : String
deriving DecidableEq

/-- The display name computed by the unknown-identifier heuristic of
`getModelInfo`: `parts[1] || modelId` where `parts = modelId.split('/')`. -/
def heuristicBaseName (modelId : String) : String :=
  match (splitOnChar '/' modelId.toList).get? 1 with
  | some n => if n = [] then modelId else String.mk n
  | none => modelId

/-- Function `getModelInfo(modelId)` (service-worker.js:129-143): catalogue lookup, with a
heuristic parse (`split('/')`, `includes(':free')`) for unknown identifiers. -/
def getModelInfo (modelId : String) : ModelInfo :=
  match MODEL_INFO.find? (fun p => p.1 == modelId) with
  | some p => ⟨modelId, p.2.name, p.2.context, p.2.provider⟩
  | none =>
    let parts := splitOnChar '/' modelId.toList
    let provider : String :=
      match parts.head? with
      | some p => if p = [] then "Unknown" else String.mk p
      | none => "Unknown"
    let isFree := containsStr ":free" modelId
    ⟨modelId, heuristicBaseName modelId ++ (if isFree then " (Free)" else ""),
      "Unknown", capitalizeStr provider⟩

/-- The mutable globals `exhaustedModels` (a `Set`, modelled as a duplicate-free
append list queried with `contains`) and `lastResetDate` (UTC day stamp). -/
structure SWState where
  exhausted : List String
  lastResetDate : String
deriving DecidableEq

/-- Function `checkDailyReset()` (service-worker.js:48-57): clear the set and restamp when
the current UTC day `now` differs from the stored stamp.  (The
`chrome.storage.local.remove` call is persistence, outside this model.) -/
def checkDailyReset (now : String) (st : SWState) : SWState :=
  if now ≠ st.lastResetDate then ⟨[], now⟩ else st

/-- Function `markModelExhausted(modelId)` (service-worker.js:89-93): `Set.add`, i.e.
append when not already present.  (`saveExhaustedModels` is persistence.) -/
def markModelExhausted (m : String) (st : SWState) : SWState :=
  if st.exhausted.contains m then st else ⟨st.exhausted ++ [m], st.lastResetDate⟩

/-- JavaScript `Array.prototype.indexOf`: first index, or `-1`. -/
def indexOfL (x : String) : List String → Int
  | [] => -1
  | y :: ys =>
    if y = x then 0
    else
      let r := indexOfL x ys
      if r ≥ 0 then r + 1 else -1

/-- The `for (let i = 1; i <= FREE_MODELS.length; i++)` probe loop of
`getNextAvailableModel` (service-worker.js:103-110); `i` starts at 1 and the
fuel counts the remaining probes. -/
def nextAvailAux (exhausted : List String) (currentIndex : Int) : Nat → Nat → Option String
  | _, 0 => none
  | i, fuel + 1 =>
    match FREE_MODELS.get? (((currentIndex + i) % (FREE_MODELS.length : Int)).toNat) with
    | some m =>
      if exhausted.contains m then nextAvailAux exhausted currentIndex (i + 1) fuel else some m
    | none => nextAvailAux exhausted currentIndex (i + 1) fuel

/-- Function `getNextAvailableModel(currentModel)` (service-worker.js:96-113): lazy daily
reset, then round-robin probe starting after the current model's position.
Returns the chosen model plus the (possibly reset) state. -/
def getNextAvailableModel (now current : String) (st : SWState) : Option String × SWState :=
  let st1 := checkDailyReset now st
  (nextAvailAux st1.exhausted (indexOfL current FREE_MODELS) 1 FREE_MODELS.length, st1)

/-- Function `getFirstAvailableModel()` (service-worker.js:116-126): lazy daily reset, then
the first catalogue entry not in the exhausted set. -/
def getFirstAvailableModel (now : String) (st : SWState) : Option String × SWState :=
  let st1 := checkDailyReset now st
  (FREE_MODELS.find? (fun m => !(st1.exhausted.contains m)), st1)

/-- The reply of the `getModelStatus` message handler (service-worker.js:178-185). -/
structure ModelStatus where
  exhaustedModels : List String
  totalFreeModels : Nat
  availableModels : List String
deriving DecidableEq

/-- The `getModelStatus` message handler (service-worker.js:178-185).  Note: it
reads `exhaustedModels` directly — it does not invoke `checkDailyReset`. -/
def getModelStatus (st : SWState) : ModelStatus :=
  ⟨st.exhausted, FREE_MODELS.length, FREE_MODELS.filter (fun m => !(st.exhausted.contains m))⟩

/-! Section: Error classifier (service-worker.js:524-582) -/

/-- Return value of `handleApiError`: `{ message, shouldRetry, isRateLimited }`.
`shouldRetry` is the spec's `retryableHere`. -/
structure ErrorInfo where
  message : String
  shouldRetry : Bool
  isRateLimited : Bool
deriving DecidableEq

/-- Function `handleApiError(response, model)` (service-worker.js:524-582) as a pure
function of the response pieces it inspects: the HTTP `status`, the parsed body
message `rawMessage` (`errorData.error?.message || ''`; empty when the body is
not JSON or has no such field), and `headerRemainingZero`
(`metadata.headers?.['X-RateLimit-Remaining'] === '0'`).  Assumes the body text
itself was readable (otherwise the JS `catch` keeps the defaults). -/
def handleApiError (status : Nat) (rawMessage : String) (headerRemainingZero : Bool)
    (model : String) : ErrorInfo :=
  if status = 429 then
    if containsStr "free-models-per-day" rawMessage || headerRemainingZero then
      ⟨"Daily limit reached for " ++ model, false, true⟩
    else if containsStr "temporarily rate-limited" rawMessage then
      ⟨model ++ " temporarily busy", true, true⟩
    else ⟨"Rate limit hit", false, true⟩
  else if status = 503 || status = 502 then ⟨"Server temporarily unavailable", true, false⟩
  else if status = 401 then ⟨"Invalid API key. Please check your OpenRouter API key.", false, false⟩
  else if status = 402 then ⟨"Insufficient credits. Add credits to OpenRouter.", false, false⟩
  else if status = 400 then
    if containsStr "not a valid model" rawMessage then ⟨"Invalid model: " ++ model, false, false⟩
    else if rawMessage = "" then ⟨"Bad request", false, false⟩
    else ⟨rawMessage, false, false⟩
  else if rawMessage = "" then ⟨"API error: " ++ toString status, false, false⟩
  else ⟨rawMessage, false, false⟩

/-- The error value `makeApiRequest` throws after classification
(service-worker.js:494-496): `new Error(errorInfo.message)` with
`error.isRateLimited = errorInfo.isRateLimited`. -/
structure ApiErr where
  message : String
  isRateLimited : Bool
deriving DecidableEq

/-- Error value `makeApiRequest` throws for a failed response classified as `info`. -/
def apiErrorOf (info : ErrorInfo) : ApiErr := ⟨info.message, info.isRateLimited⟩

/-! Section: Orchestrator (`handleSummarize`, service-worker.js:200-331)

One summarization attempt (`summarizeWithChunking` / `summarizeSingleChunk`
together with every API call they make) is abstracted as an oracle
`String → Except ApiErr String` from the model id to the attempt's outcome,
since the claims quantify over the external API's behaviour. -/

/-- The `isRateLimit` test of `handleSummarize` (service-worker.js:286-290). -/
def isRateLimitHeuristic (e : ApiErr) : Bool :=
  containsStr "Rate limit" e.message || containsStr "daily limit" e.message ||
    containsStr "exhausted" e.message || containsStr "429" e.message || e.isRateLimited

/-- Payload of `sendResponse`, restricted to the claim-relevant fields: `summary`,
`modelInfo.id` (the model actually used) and `modelInfo.fallbackUsed`
(`actualModel !== model`).  The remaining `modelInfo` fields (display name,
token estimates, `chunksUsed`) are presentational. -/
inductive SWResponse where
  | success (summary : String) (modelId : String) (fallbackUsed : Bool)
  | failure (error : String)
deriving DecidableEq

/-- The `sendResponse` error text on the all-exhausted path inside the attempt
loop (service-worker.js:305-309), which interpolates `exhaustedModels.size`. -/
def allExhaustedLoopMsg (size : Nat) : String :=
  "All free models exhausted for today!\n\nTried " ++ toString size ++
    " models.\n\nOptions:\n• Wait until midnight UTC\n• Add credits to OpenRouter\n• Use a paid model"

/-- The `while (attempts < maxAttempts)` loop of `handleSummarize`
(service-worker.js:244-316).  Fuel is `maxAttempts - attempts`; the returned
`Nat` is the final value of `attempts` (one per oracle call, as in the source,
where `attempts++` opens each iteration).  The `throw error` of the
non-rate-limit / custom-model branch lands in the outer `catch`, which responds
with `error.message` (service-worker.js:324-330). -/
def summarizeAttemptLoop (oracle : String → Except ApiErr String) (now origModel : String)
    (isUsingFreeModels : Bool) : Nat → String → SWState → Nat → SWResponse × SWState × Nat
  | 0, _, st, attempts =>
    (.failure "Failed to summarize after trying all available models.", st, attempts)
  | fuel + 1, actualModel, st, attempts =>
    match oracle actualModel with
    | .ok summary => (.success summary actualModel (actualModel != origModel), st, attempts + 1)
    | .error e =>
      if isRateLimitHeuristic e && isUsingFreeModels then
        let st1 := markModelExhausted actualModel st
        match getNextAvailableModel now actualModel st1 with
        | (some nextModel, st2) =>
          summarizeAttemptLoop oracle now origModel isUsingFreeModels fuel nextModel st2
            (attempts + 1)
        | (none, st2) => (.failure (allExhaustedLoopMsg st2.exhausted.length), st2, attempts + 1)
      else (.failure e.message, st, attempts + 1)

/-- The `summarize` request fields the orchestrator reads
(service-worker.js:205): `customCode = none` models an absent/empty custom
model (JavaScript falsy). -/
structure SummarizeRequest where
  text : List Char
  apiKey : String
  customCode : Option String

/-- Function `handleSummarize(request, sendResponse)` (service-worker.js:200-331):
validation, model-selection mode, first model, then the attempt loop.  `now` is
the UTC day stamp of this invocation; `st` is the in-memory state after
`loadExhaustedModels()`.  Returns (response, final state, attempts made). -/
def handleSummarize (req : SummarizeRequest) (oracle : String → Except ApiErr String)
    (now : String) (st : SWState) : SWResponse × SWState × Nat :=
  if req.apiKey = "" then (.failure "API key is required", st, 0)
  else if trimList req.text = [] then (.failure "No content found on this page.", st, 0)
  else
    let isUsingFreeModels :=
      match req.customCode with
      | none => true
      | some c => FREE_MODELS.contains c
    let sel :=
      match req.customCode with
      | some c => (some c, st)
      | none => getFirstAvailableModel now st
    match sel with
    | (none, st1) =>
      (.failure ("All free models exhausted for today!\n\nOptions:\n• Wait until midnight UTC for reset\n• Add credits to OpenRouter\n• Use a paid model (e.g., openai/gpt-4o-mini)"),
        st1, 0)
    | (some model, st1) =>
      let maxAttempts := if isUsingFreeModels then FREE_MODELS.length else 1
      summarizeAttemptLoop oracle now model isUsingFreeModels maxAttempts model st1 0

/-! Section: Chunked summarization (`summarizeWithChunking`, service-worker.js:374-413)

The per-chunk call `summarizeSingleChunk(chunks[i], …, `part i+1 of n`)` and the
final `combineSummaries` call are abstracted as oracles on the success path
(failures propagate to the orchestrator loop above).  `CONFIG.CHUNK_SIZE` is
threaded as the `chunkSize` parameter; the extension always passes 1500. -/

/-- JavaScript `Array.prototype.join(sep)`. -/
def joinWith (sep : List Char) : List (List Char) → List Char
  | [] => []
  | [s] => s
  | s :: rest => s ++ sep ++ joinWith sep rest

/-- JavaScript `chunks.map((c, i) => f i c)`, indices from `i0`. -/
def mapIdx2 (f : Nat → List Char → List Char) : Nat → List (List Char) → List (List Char)
  | _, [] => []
  | i, c :: cs => f i c :: mapIdx2 f (i + 1) cs

/-- Return value of `summarizeWithChunking` — `{summary, chunks}` — extended
with the number of `combineSummaries` (final-merge) calls made. -/
structure ChunkResult where
  summary : List Char
  chunks : Nat
  mergeCalls : Nat
deriving DecidableEq

/-- Function `summarizeWithChunking(text, apiKey, model)` (service-worker.js:374-413),
success path: summarize every chunk, then either return the single summary,
join verbatim when the combined text exceeds `chunkSize * 2`, or make exactly
one `combineSummaries` call. -/
def summarizeWithChunking (chunkSummarizer : Nat → List Char → List Char)
    (summaryCombiner : List Char → List Char) (text : List Char) (chunkSize : Nat) :
    ChunkResult :=
  let chunks := splitIntoChunks text chunkSize
  let summaries := mapIdx2 chunkSummarizer 0 chunks
  if summaries.length = 1 then ⟨summaries.headD [], 1, 0⟩
  else
    let combinedText := joinWith "\n\n---\n\n".toList summaries
    if combinedText.length > chunkSize * 2 then
      ⟨joinWith "\n\n".toList summaries, chunks.length, 0⟩
    else ⟨summaryCombiner combinedText, chunks.length, 1⟩

/-! Section: Helper lemmas: trimming and whitespace -/

theorem length_dropWhile_le (p : Char → Bool) (l : List Char) :
    (l.dropWhile p).length ≤ l.length := by
  induction l with
  | nil => simp [List.dropWhile]
  | cons x xs ih =>
    by_cases hx : p x
    · simpa [List.dropWhile_cons, hx] using Nat.le_succ_of_le ih
    · simp [List.dropWhile_cons, hx]

theorem trimList_length_le (l : List Char) : (trimList l).length ≤ l.length := by
  unfold trimList
  calc ((l.reverse.dropWhile isWs).reverse.dropWhile isWs).length
      ≤ (l.reverse.dropWhile isWs).reverse.length := length_dropWhile_le _ _
    _ = (l.reverse.dropWhile isWs).length := List.length_reverse _
    _ ≤ l.reverse.length := length_dropWhile_le _ _
    _ = l.length := List.length_reverse _

theorem allWs_append {a b : List Char} (ha : allWs a) (hb : allWs b) : allWs (a ++ b) := by
  intro c hc
  rcases List.mem_append.mp hc with h | h
  · exact ha c h
  · exact hb c h

/-- Every list splits as leading whitespace, its trim, and trailing whitespace. -/
theorem trimList_decomp (l : List Char) :
    ∃ a b, allWs a ∧ allWs b ∧ l = a ++ trimList l ++ b := by
  refine ⟨(l.reverse.dropWhile isWs).reverse.takeWhile isWs,
    (l.reverse.takeWhile isWs).reverse, ?_, ?_, ?_⟩
  · intro c hc
    exact List.mem_takeWhile_imp hc
  · intro c hc
    exact List.mem_takeWhile_imp (List.mem_reverse.mp hc)
  · have h2 : List.takeWhile isWs ((List.dropWhile isWs l.reverse).reverse) ++ trimList l
        = (List.dropWhile isWs l.reverse).reverse := by
      unfold trimList
      exact List.takeWhile_append_dropWhile isWs _
    have h1 : (List.dropWhile isWs l.reverse).reverse ++ (List.takeWhile isWs l.reverse).reverse
        = l := by
      rw [← List.reverse_append, List.takeWhile_append_dropWhile, List.reverse_reverse]
    rw [h2]
    exact h1.symm

theorem allWs_of_trimList_eq_nil {l : List Char} (h : trimList l = []) : allWs l := by
  obtain ⟨a, b, ha, hb, hl⟩ := trimList_decomp l
  rw [hl, h]
  simpa using allWs_append ha hb

theorem head?_dropWhile_not_ws (p : Char → Bool) :
    ∀ (l : List Char) (c : Char), (l.dropWhile p).head? = some c → p c = false := by
  intro l
  induction l with
  | nil => simp [List.dropWhile]
  | cons x xs ih =>
    intro c h
    by_cases hx : p x
    · exact ih c (by simpa [List.dropWhile_cons, hx] using h)
    · rw [List.dropWhile_cons, if_neg (by simpa using hx)] at h
      simp only [List.head?] at h
      cases h
      simpa using hx

theorem trimList_head_not_ws {l : List Char} {c : Char}
    (h : (trimList l).head? = some c) : isWs c = false :=
  head?_dropWhile_not_ws isWs _ c h

theorem trimList_ne_nil_of_head {l : List Char} {c : Char}
    (hc : l.head? = some c) (hw : isWs c = false) : trimList l ≠ [] := by
  intro hnil
  have hall := allWs_of_trimList_eq_nil hnil
  cases l with
  | nil => simp at hc
  | cons x xs =>
    simp only [List.head?] at hc
    cases hc
    have := hall c (by simp)
    rw [this] at hw
    cases hw

/-! Section: Helper lemmas: `glues` -/

theorem glues_append_ws : ∀ (cs : List (List Char)) (t w : List Char),
    glues t cs → allWs w → glues (t ++ w) cs := by
  intro cs
  induction cs with
  | nil =>
    intro t w ht hw
    exact allWs_append ht hw
  | cons c cs ih =>
    intro t w ht hw
    obtain ⟨w0, rest, hw0, hteq, hrest⟩ := ht
    exact ⟨w0, rest ++ w, hw0, by rw [hteq]; simp [List.append_assoc], ih rest w hrest hw⟩

theorem glues_ws_append (cs : List (List Char)) (w t : List Char)
    (hw : allWs w) (ht : glues t cs) : glues (w ++ t) cs := by
  cases cs with
  | nil => exact allWs_append hw ht
  | cons c cs =>
    obtain ⟨w0, rest, hw0, hteq, hrest⟩ := ht
    exact ⟨w ++ w0, rest, allWs_append hw hw0, by rw [hteq]; simp [List.append_assoc], hrest⟩

/-! Section: Helper lemmas: `lastIndexOf` bounds and the break point -/

theorem lastIndexOf2_bound (a b : Char) :
    ∀ l : List Char, 0 ≤ lastIndexOf2 l a b → lastIndexOf2 l a b + 2 ≤ l.length := by
  intro l
  induction l with
  | nil => simp [lastIndexOf2]
  | cons x xs ih =>
    cases xs with
    | nil => simp [lastIndexOf2]
    | cons y rest =>
      intro h
      simp only [lastIndexOf2] at h ⊢
      by_cases hr : lastIndexOf2 (y :: rest) a b ≥ 0
      · rw [if_pos hr] at h ⊢
        have := ih hr
        simp only [List.length_cons] at this ⊢
        omega
      · rw [if_neg hr] at h ⊢
        by_cases hm : x = a ∧ y = b
        · rw [if_pos hm]
          simp only [List.length_cons]
          omega
        · rw [if_neg hm] at h
          omega

theorem lastIndexOfChar_bound (a : Char) :
    ∀ l : List Char, 0 ≤ lastIndexOfChar l a → lastIndexOfChar l a + 1 ≤ l.length := by
  intro l
  induction l with
  | nil => simp [lastIndexOfChar]
  | cons x xs ih =>
    intro h
    simp only [lastIndexOfChar] at h ⊢
    by_cases hr : lastIndexOfChar xs a ≥ 0
    · rw [if_pos hr] at h ⊢
      have := ih hr
      simp only [List.length_cons]
      omega
    · rw [if_neg hr] at h ⊢
      by_cases hm : x = a
      · rw [if_pos hm]
        simp only [List.length_cons]
        omega
      · rw [if_neg hm] at h
        omega

theorem max_bound_closed {len : Int} {x y : Int} (hx : 0 ≤ x → x + 2 ≤ len)
    (hy : 0 ≤ y → y + 2 ≤ len) : 0 ≤ max x y → max x y + 2 ≤ len := by
  rcases le_total x y with h | h
  · rw [max_eq_right h]
    exact hy
  · rw [max_eq_left h]
    exact hx

theorem breakPointOf_pos (chunk : List Char) (cs : Nat) (h : 1 ≤ cs) :
    1 ≤ breakPointOf chunk cs := by
  simp only [breakPointOf]
  split
  · next hlt => omega
  · split
    · next hlt => omega
    · exact h

theorem breakPointOf_le (chunk : List Char) (cs : Nat) (hlen : chunk.length ≤ cs) :
    breakPointOf chunk cs ≤ cs := by
  simp only [breakPointOf]
  split
  · next hlt =>
    have hb : 0 ≤ max (max (max (max (lastIndexOf2 chunk '.' ' ') (lastIndexOf2 chunk '!' ' '))
        (lastIndexOf2 chunk '?' ' ')) (lastIndexOf2 chunk '.' '\n'))
        (lastIndexOf2 chunk '\n' '\n') →
        max (max (max (max (lastIndexOf2 chunk '.' ' ') (lastIndexOf2 chunk '!' ' '))
        (lastIndexOf2 chunk '?' ' ')) (lastIndexOf2 chunk '.' '\n'))
        (lastIndexOf2 chunk '\n' '\n') + 2 ≤ (chunk.length : Int) := by
      refine max_bound_closed (max_bound_closed (max_bound_closed (max_bound_closed ?_ ?_) ?_) ?_) ?_
      all_goals
        intro h0
        exact_mod_cast lastIndexOf2_bound _ _ chunk h0
    have := hb (by omega)
    omega
  · split
    · next hlt =>
      have := lastIndexOfChar_bound ' ' chunk (by omega)
      omega
    · exact le_rfl

/-! Section: Helper lemmas: the split loop -/

/-- One looping iteration strictly shrinks the remaining text (needs budget ≥ 1). -/
theorem splitStep_lt (r : List Char) (cs : Nat) (h1 : 1 ≤ cs) (h2 : cs < r.length) :
    (trimList (r.drop (breakPointOf (r.take cs) cs))).length < r.length := by
  have hbp := breakPointOf_pos (r.take cs) cs h1
  have hd := trimList_length_le (r.drop (breakPointOf (r.take cs) cs))
  rw [List.length_drop] at hd
  omega

/-- The loop's result does not depend on the fuel once the fuel exceeds the
remaining length: together with `splitStep_lt` this is the termination
argument for `splitIntoChunks` at any budget ≥ 1. -/
theorem splitLoop_fuel_eq (cs : Nat) (hcs : 1 ≤ cs) :
    ∀ (n : Nat) (f1 f2 : Nat) (r : List Char), r.length ≤ n →
      r.length < f1 → r.length < f2 → splitLoop f1 r cs = splitLoop f2 r cs := by
  intro n
  induction n with
  | zero =>
    intro f1 f2 r hn h1 h2
    obtain ⟨a, rfl⟩ : ∃ a, f1 = a + 1 := ⟨f1 - 1, by omega⟩
    obtain ⟨b, rfl⟩ : ∃ b, f2 = b + 1 := ⟨f2 - 1, by omega⟩
    have hr0 : r.length = 0 := by omega
    simp [splitLoop, hr0]
  | succ n ih =>
    intro f1 f2 r hn h1 h2
    obtain ⟨a, rfl⟩ : ∃ a, f1 = a + 1 := ⟨f1 - 1, by omega⟩
    obtain ⟨b, rfl⟩ : ∃ b, f2 = b + 1 := ⟨f2 - 1, by omega⟩
    by_cases hr0 : r.length = 0
    · simp [splitLoop, hr0]
    · by_cases hrc : r.length ≤ cs
      · simp [splitLoop, hr0, hrc]
      · have hlt := splitStep_lt r cs hcs (by omega)
        simp only [splitLoop, if_neg hr0, if_neg hrc]
        rw [ih a b _ (by omega) (by omega) (by omega)]

/-- Reconstruction invariant, loop form: provided the fuel covers the input,
the remaining text glues back from the emitted chunks. -/
theorem splitLoop_glues (cs : Nat) (hcs : 1 ≤ cs) :
    ∀ (fuel : Nat) (r : List Char), r.length < fuel → glues r (splitLoop fuel r cs) := by
  intro fuel
  induction fuel with
  | zero =>
    intro r h
    omega
  | succ fuel ih =>
    intro r h
    by_cases hr0 : r.length = 0
    · rw [List.length_eq_zero] at hr0
      subst hr0
      simp only [splitLoop, List.length_nil, if_pos rfl]
      intro c hc
      cases hc
    · by_cases hrc : r.length ≤ cs
      · simp only [splitLoop, if_neg hr0, if_pos hrc]
        obtain ⟨a, b, ha, hb, hdec⟩ := trimList_decomp r
        exact ⟨a, b, ha, hdec, hb⟩
      · simp only [splitLoop, if_neg hr0, if_neg hrc]
        have hlt := splitStep_lt r cs hcs (by omega)
        have hrec := ih (trimList (r.drop (breakPointOf (r.take cs) cs))) (by omega)
        obtain ⟨a1, b1, ha1, hb1, hdec1⟩ := trimList_decomp (r.take (breakPointOf (r.take cs) cs))
        obtain ⟨a2, b2, ha2, hb2, hdec2⟩ := trimList_decomp (r.drop (breakPointOf (r.take cs) cs))
        refine ⟨a1, b1 ++ (a2 ++ (trimList (r.drop (breakPointOf (r.take cs) cs)) ++ b2)),
          ha1, ?_, ?_⟩
        · conv_lhs => rw [← List.take_append_drop (breakPointOf (r.take cs) cs) r, hdec1, hdec2]
          simp [List.append_assoc]
        · exact glues_ws_append _ _ _ hb1 (glues_ws_append _ _ _ ha2
            (glues_append_ws _ _ _ hrec hb2))

/-- Every chunk the loop emits fits the budget. -/
theorem splitLoop_len_le (cs : Nat) :
    ∀ (fuel : Nat) (r : List Char), ∀ c ∈ splitLoop fuel r cs, c.length ≤ cs := by
  intro fuel
  induction fuel with
  | zero =>
    intro r c hc
    simp [splitLoop] at hc
  | succ fuel ih =>
    intro r c hc
    by_cases hr0 : r.length = 0
    · simp [splitLoop, hr0] at hc
    · by_cases hrc : r.length ≤ cs
      · simp only [splitLoop, if_neg hr0, if_pos hrc, List.mem_singleton] at hc
        subst hc
        exact le_trans (trimList_length_le r) hrc
      · simp only [splitLoop, if_neg hr0, if_neg hrc, List.mem_cons] at hc
        rcases hc with hc | hc
        · subst hc
          have hbp : breakPointOf (r.take cs) cs ≤ cs :=
            breakPointOf_le (r.take cs) cs (by simp [List.length_take])
          refine le_trans (trimList_length_le _) (le_trans ?_ hbp)
          simp [List.length_take]
        · exact ih _ c hc

/-- Every chunk the loop emits from a remainder whose head is not whitespace is
non-empty (budget ≥ 1).  After the first iteration the remainder is always
trimmed, so this applies to every chunk but the first. -/
theorem splitLoop_ne_nil (cs : Nat) (hcs : 1 ≤ cs) :
    ∀ (fuel : Nat) (r : List Char),
      (∀ c0, r.head? = some c0 → isWs c0 = false) → ∀ c ∈ splitLoop fuel r cs, c ≠ [] := by
  intro fuel
  induction fuel with
  | zero =>
    intro r hhead c hc
    simp [splitLoop] at hc
  | succ fuel ih =>
    intro r hhead c hc
    by_cases hr0 : r.length = 0
    · simp [splitLoop, hr0] at hc
    · have hne : r ≠ [] := by
        intro h
        rw [h] at hr0
        simp at hr0
      obtain ⟨c0, r', rfl⟩ : ∃ c0 r', r = c0 :: r' := by
        cases r with
        | nil => exact absurd rfl hne
        | cons x xs => exact ⟨x, xs, rfl⟩
      have hc0 : isWs c0 = false := hhead c0 rfl
      by_cases hrc : (c0 :: r').length ≤ cs
      · simp only [splitLoop, if_neg hr0, if_pos hrc, List.mem_singleton] at hc
        subst hc
        exact trimList_ne_nil_of_head (l := c0 :: r') rfl hc0
      · simp only [splitLoop, if_neg hr0, if_neg hrc, List.mem_cons] at hc
        rcases hc with hc | hc
        · subst hc
          have htake : ((c0 :: r').take (breakPointOf ((c0 :: r').take cs) cs)).head? = some c0 := by
            have hbp := breakPointOf_pos ((c0 :: r').take cs) cs hcs
            obtain ⟨k, hk⟩ : ∃ k, breakPointOf ((c0 :: r').take cs) cs = k + 1 :=
              ⟨breakPointOf ((c0 :: r').take cs) cs - 1, by omega⟩
            rw [hk]
            rfl
          exact trimList_ne_nil_of_head htake hc0
        · refine ih _ ?_ c hc
          intro d hd
          exact trimList_head_not_ws hd

/-! Section: Claims about the chunk splitter (C5, C6, C7) -/

/-- C5: for every input text and chunk budget (≥ 1, the loop diverges at
budget 0), concatenating the chunks returned by `splitIntoChunks` in order,
re-inserting the boundary whitespace removed by trimming, reproduces the
original text: no character other than boundary whitespace is dropped, and
none is duplicated or reordered (`glues` is exactly that decomposition). -/
theorem c5_concat_reconstructs (text : List Char) (chunkSize : Nat) (h : 1 ≤ chunkSize) :
    glues text (splitIntoChunks text chunkSize) :=
  splitLoop_glues chunkSize h (text.length + 1) text (by omega)

theorem c5_concat_reconstructs_witness :
    glues "a b".toList (splitIntoChunks "a b".toList 1) :=
  c5_concat_reconstructs "a b".toList 1 (by decide)

/-- C6 (counterexample): the claim "every chunk returned by split is non-empty"
fails — for whitespace-only input the single emitted chunk is trimmed to the
empty string (`splitIntoChunks(" ", 1500) = [""]`, service-worker.js:340). -/
theorem c6_cex_empty_chunk : [] ∈ splitIntoChunks " ".toList 1500 := by decide

/-- C6 (amended): every chunk's length is ≤ the budget — unconditionally, the
"single word exceeds the budget" exception never materialises because the
fallback break point is exactly the budget boundary — and every chunk after
the first is non-empty; only the first chunk can be empty, which happens when
the leading window of the text is entirely whitespace. -/
theorem c6_chunk_bounds (text : List Char) (chunkSize : Nat) (h : 1 ≤ chunkSize) :
    (∀ c ∈ splitIntoChunks text chunkSize, c.length ≤ chunkSize) ∧
      ∀ c ∈ (splitIntoChunks text chunkSize).drop 1, c ≠ [] := by
  refine ⟨splitLoop_len_le chunkSize (text.length + 1) text, ?_⟩
  by_cases hr0 : text.length = 0
  · rw [List.length_eq_zero] at hr0
    subst hr0
    intro c hc
    simp [splitIntoChunks, splitLoop] at hc
  · have hne : text ≠ [] := by
      intro h'
      rw [h'] at hr0
      simp at hr0
    by_cases hrc : text.length ≤ chunkSize
    · intro c hc
      simp [splitIntoChunks, splitLoop, if_neg hr0, if_pos hrc, hne] at hc
    · intro c hc
      have hun : splitIntoChunks text chunkSize
          = trimList (text.take (breakPointOf (text.take chunkSize) chunkSize))
            :: splitLoop text.length
              (trimList (text.drop (breakPointOf (text.take chunkSize) chunkSize))) chunkSize := by
        simp [splitIntoChunks, splitLoop, if_neg hr0, if_neg hrc, hne]
      rw [hun] at hc
      simp only [List.drop_succ_cons, List.drop_zero] at hc
      exact splitLoop_ne_nil chunkSize h text.length _ (fun d hd => trimList_head_not_ws hd) c hc

theorem c6_chunk_bounds_witness :
    (∀ c ∈ splitIntoChunks "ab cd".toList 3, c.length ≤ 3) ∧
      ∀ c ∈ (splitIntoChunks "ab cd".toList 3).drop 1, c ≠ [] :=
  c6_chunk_bounds "ab cd".toList 3 (by decide)

/-- C7: for every chunk budget ≥ 1, each iteration of the split loop strictly
decreases the length of the remaining text (first conjunct), so the loop
terminates on every input, including pathological input with no whitespace:
any fuel beyond the input length yields the same chunk list (second conjunct,
with `splitIntoChunks` running the loop on fuel `text.length + 1`). -/
theorem c7_split_terminates (chunkSize : Nat) (h : 1 ≤ chunkSize) :
    (∀ r : List Char, chunkSize < r.length →
        (trimList (r.drop (breakPointOf (r.take chunkSize) chunkSize))).length < r.length) ∧
      ∀ (text : List Char) (fuel : Nat), text.length < fuel →
        splitLoop fuel text chunkSize = splitIntoChunks text chunkSize := by
  refine ⟨fun r hr => splitStep_lt r chunkSize h hr, fun t f hf => ?_⟩
  exact splitLoop_fuel_eq chunkSize h t.length f (t.length + 1) t le_rfl hf (by omega)

/-! Section: Helper lemmas: strings, exhaustion tracker, attempt loop -/

theorem startsWithL_append (l t : List Char) : startsWithL l (l ++ t) = true := by
  induction l with
  | nil => rfl
  | cons c cs ih => simp [startsWithL, ih]

theorem containsSub_append_self (pat : List Char) :
    ∀ xs : List Char, containsSub pat (xs ++ pat) = true := by
  intro xs
  induction xs with
  | nil =>
    cases pat with
    | nil => rfl
    | cons c cs =>
      have h := startsWithL_append (c :: cs) []
      rw [List.append_nil] at h
      simp [containsSub, h]
  | cons x xs ih =>
    simp [containsSub, ih]

theorem containsStr_append_self (pre m : String) : containsStr m (pre ++ m) = true := by
  show containsSub m.data (pre ++ m).data = true
  rw [String.data_append]
  exact containsSub_append_self m.data pre.data

theorem markModelExhausted_date (m : String) (st : SWState) :
    (markModelExhausted m st).lastResetDate = st.lastResetDate := by
  unfold markModelExhausted
  split
  · rfl
  · rfl

theorem markModelExhausted_contains_self (m : String) (st : SWState) :
    (markModelExhausted m st).exhausted.contains m = true := by
  unfold markModelExhausted
  split
  · next h => exact h
  · simp [List.contains, List.elem_iff]

theorem checkDailyReset_same {now : String} {st : SWState} (h : st.lastResetDate = now) :
    checkDailyReset now st = st := by
  simp [checkDailyReset, h]

theorem nextAvailAux_not_exhausted (ex : List String) (ci : Int) :
    ∀ (fuel i : Nat) (m : String), nextAvailAux ex ci i fuel = some m →
      ex.contains m = false := by
  intro fuel
  induction fuel with
  | zero =>
    intro i m h
    simp [nextAvailAux] at h
  | succ fuel ih =>
    intro i m h
    simp only [nextAvailAux] at h
    split at h
    · next m1 heq =>
      split at h
      · next hex => exact ih _ m h
      · next hex =>
        cases h
        exact Bool.eq_false_iff.mpr hex
    · next heq => exact ih _ m h

/-- Unfolding equation for one attempt-loop iteration. -/
theorem summarizeAttemptLoop_succ (oracle : String → Except ApiErr String)
    (now origModel : String) (free : Bool) (fuel : Nat) (actualModel : String)
    (st : SWState) (attempts : Nat) :
    summarizeAttemptLoop oracle now origModel free (fuel + 1) actualModel st attempts =
      match oracle actualModel with
      | .ok summary => (.success summary actualModel (actualModel != origModel), st, attempts + 1)
      | .error e =>
        if isRateLimitHeuristic e && free then
          match getNextAvailableModel now actualModel (markModelExhausted actualModel st) with
          | (some nextModel, st2) =>
            summarizeAttemptLoop oracle now origModel free fuel nextModel st2 (attempts + 1)
          | (none, st2) => (.failure (allExhaustedLoopMsg st2.exhausted.length), st2, attempts + 1)
        else (.failure e.message, st, attempts + 1) := rfl

theorem handleApiError_429_isRateLimited (raw : String) (hdr : Bool) (m : String) :
    (handleApiError 429 raw hdr m).isRateLimited = true := by
  simp only [handleApiError]
  norm_num
  split
  · rfl
  · split
    · rfl
    · rfl

theorem c7_split_terminates_witness :
    (trimList ((['a', 'b']).drop (breakPointOf ((['a', 'b']).take 1) 1))).length
        < (['a', 'b'] : List Char).length ∧
      splitLoop 5 ['a', 'b'] 1 = splitIntoChunks ['a', 'b'] 1 :=
  ⟨(c7_split_terminates 1 (by decide)).1 ['a', 'b'] (by decide),
   (c7_split_terminates 1 (by decide)).2 ['a', 'b'] 5 (by decide)⟩

/-! Section: Claim C4: error classifier -/

/-- C4: every 429 response whose body carries a per-day-limit marker
(`free-models-per-day` in the message, or `X-RateLimit-Remaining: 0`)
classifies as `isRateLimited = true` and `retryableHere = false` (the source's
`shouldRetry`); every 503 response classifies as `isRateLimited = false` and
`retryableHere = true`. -/
theorem c4_classifier :
    (∀ (raw : String) (hdr : Bool) (m : String),
        containsStr "free-models-per-day" raw = true ∨ hdr = true →
        (handleApiError 429 raw hdr m).isRateLimited = true ∧
          (handleApiError 429 raw hdr m).shouldRetry = false) ∧
      ∀ (raw : String) (hdr : Bool) (m : String),
        (handleApiError 503 raw hdr m).isRateLimited = false ∧
          (handleApiError 503 raw hdr m).shouldRetry = true := by
  constructor
  · intro raw hdr m h
    have hcond : (containsStr "free-models-per-day" raw || hdr) = true := by
      rcases h with h | h
      · simp [h]
      · simp [h]
    simp [handleApiError, hcond]
  · intro raw hdr m
    simp [handleApiError]

theorem c4_classifier_witness :
    ((handleApiError 429 "free-models-per-day" false "acme/m").isRateLimited = true ∧
        (handleApiError 429 "free-models-per-day" false "acme/m").shouldRetry = false) ∧
      (handleApiError 503 "" false "acme/m").isRateLimited = false ∧
        (handleApiError 503 "" false "acme/m").shouldRetry = true :=
  ⟨c4_classifier.1 "free-models-per-day" false "acme/m" (Or.inl (by decide)),
   c4_classifier.2 "" false "acme/m"⟩

/-! Section: Claim C2: explicit custom model disables cycling -/

/-- C2 (counterexample): with an explicit model not in the free catalogue, a
first-call 429 whose body carries no marker does fail immediately, but with
the generic message `"Rate limit hit"` (service-worker.js:557), which does
not mention the model id — refuting "the failure message mentions the model
id" for general 429 responses. -/
theorem c2_cex_unclassified_429_message :
    (handleSummarize ⟨"hello page text".toList, "key", some "acme/custom-model"⟩
        (fun mdl => .error (apiErrorOf (handleApiError 429 "" false mdl)))
        "Thu, 01 Jan 2026" ⟨[], "Thu, 01 Jan 2026"⟩).1
      = .failure "Rate limit hit" ∧
      containsStr "acme/custom-model" "Rate limit hit" = false := by
  refine ⟨by decide, by decide⟩

/-- C2 (amended): when the caller supplies an explicit model that is not in
the free catalogue, fallback cycling is disabled and exactly one attempt is
made — any first-call failure, a 429 rate-limit included, yields an immediate
terminal Failure carrying the classifier's message (state untouched, attempt
count 1).  The failure message mentions the model id whenever the 429 body
carries the per-day-limit marker (`"Daily limit reached for <model>"`);
the unclassified-429 message `"Rate limit hit"` does not. -/
theorem c2_custom_model_no_cycling (m : String) (oracle : String → Except ApiErr String)
    (e : ApiErr) (now : String) (st : SWState) (text : List Char) (apiKey : String)
    (hm : FREE_MODELS.contains m = false) (hkey : apiKey ≠ "") (htext : trimList text ≠ [])
    (he : oracle m = .error e) :
    handleSummarize ⟨text, apiKey, some m⟩ oracle now st = (.failure e.message, st, 1) ∧
      ∀ (raw : String) (hdr : Bool),
        containsStr "free-models-per-day" raw = true ∨ hdr = true →
        containsStr m (handleApiError 429 raw hdr m).message = true := by
  constructor
  · have h1 : summarizeAttemptLoop oracle now m false 1 m st 0 = (.failure e.message, st, 1) := by
      have hstep := summarizeAttemptLoop_succ oracle now m false 0 m st 0
      norm_num at hstep
      rw [hstep, he]
    have hm1 : m ∉ FREE_MODELS := by
      intro hmem
      have h2 : FREE_MODELS.contains m = true := List.elem_iff.mpr hmem
      rw [hm] at h2
      simp at h2
    simp [handleSummarize, hkey, htext, hm1, h1]
  · intro raw hdr h
    simp only [handleApiError]
    norm_num
    rw [if_pos h]
    exact containsStr_append_self "Daily limit reached for " m

theorem c2_custom_model_no_cycling_witness :
    (handleSummarize ⟨"hello page text".toList, "key", some "acme/custom-model"⟩
        (fun mdl => .error (apiErrorOf (handleApiError 429 "free-models-per-day" false mdl)))
        "Thu, 01 Jan 2026" ⟨[], "Thu, 01 Jan 2026"⟩
      = (.failure (apiErrorOf (handleApiError 429 "free-models-per-day" false
          "acme/custom-model")).message, ⟨[], "Thu, 01 Jan 2026"⟩, 1)) ∧
      ∀ (raw : String) (hdr : Bool),
        containsStr "free-models-per-day" raw = true ∨ hdr = true →
        containsStr "acme/custom-model"
          (handleApiError 429 raw hdr "acme/custom-model").message = true :=
  c2_custom_model_no_cycling "acme/custom-model" _ _ "Thu, 01 Jan 2026"
    ⟨[], "Thu, 01 Jan 2026"⟩ "hello page text".toList "key"
    (by decide) (by decide) (by decide) rfl

/-! Section: Claim C1: fallback cycling after a daily 429 -/

/-- C1: with free-model cycling enabled (no custom model), if the first
selected model `A` fails with a daily 429 (the error thrown after
`handleApiError` classifies a 429 carrying the per-day marker) and the next
available catalogue model `B` succeeds, `handleSummarize` responds with
success, `modelInfo.fallbackUsed = true`, and the model actually used is `B`
(which provably differs from the originally selected `A`). -/
theorem c1_fallback_on_daily_limit (d : String) (st : SWState)
    (oracle : String → Except ApiErr String) (A B summary raw : String) (hdr : Bool)
    (text : List Char) (apiKey : String)
    (hdate : st.lastResetDate = d)
    (hA : (getFirstAvailableModel d st).1 = some A)
    (hB : (getNextAvailableModel d A (markModelExhausted A st)).1 = some B)
    (_hmarker : containsStr "free-models-per-day" raw = true ∨ hdr = true)
    (hfail : oracle A = .error (apiErrorOf (handleApiError 429 raw hdr A)))
    (hok : oracle B = .ok summary)
    (hkey : apiKey ≠ "") (htext : trimList text ≠ []) :
    (handleSummarize ⟨text, apiKey, none⟩ oracle d st).1 = .success summary B true := by
  have hreset : checkDailyReset d st = st := checkDailyReset_same hdate
  have hA1 : List.find? (fun m => !decide (m ∈ st.exhausted)) FREE_MODELS = some A := by
    simpa [getFirstAvailableModel, hreset] using hA
  have hreset1 : checkDailyReset d (markModelExhausted A st) = markModelExhausted A st :=
    checkDailyReset_same (by rw [markModelExhausted_date, hdate])
  have hB1 : nextAvailAux (markModelExhausted A st).exhausted (indexOfL A FREE_MODELS) 1
      FREE_MODELS.length = some B := by
    simpa [getNextAvailableModel, hreset1] using hB
  have hBA : B ≠ A := by
    intro hEq
    have hnb := nextAvailAux_not_exhausted _ _ _ _ _ hB1
    rw [hEq, markModelExhausted_contains_self] at hnb
    simp at hnb
  have hrl : isRateLimitHeuristic (apiErrorOf (handleApiError 429 raw hdr A)) = true := by
    simp [isRateLimitHeuristic, apiErrorOf, handleApiError_429_isRateLimited]
  have e5 : summarizeAttemptLoop oracle d A true 5 A st 0
      = summarizeAttemptLoop oracle d A true 4 B (markModelExhausted A st) 1 := by
    have hstep := summarizeAttemptLoop_succ oracle d A true 4 A st 0
    norm_num at hstep
    rw [hstep, hfail]
    simp [hrl, getNextAvailableModel, hreset1, hB1]
  have e4 : summarizeAttemptLoop oracle d A true 4 B (markModelExhausted A st) 1
      = (.success summary B true, markModelExhausted A st, 2) := by
    have hstep := summarizeAttemptLoop_succ oracle d A true 3 B (markModelExhausted A st) 1
    norm_num at hstep
    rw [hstep, hok]
    have hb : (B != A) = true := bne_iff_ne.mpr hBA
    simp [hb]
  have hsel : handleSummarize ⟨text, apiKey, none⟩ oracle d st
      = summarizeAttemptLoop oracle d A true FREE_MODELS.length A st 0 := by
    simp [handleSummarize, hkey, htext, getFirstAvailableModel, hreset, hA1]
  rw [hsel, show FREE_MODELS.length = 5 from rfl, e5, e4]

theorem c1_fallback_on_daily_limit_witness :
    (handleSummarize ⟨"hello page".toList, "key", none⟩
        (fun mdl => if mdl == "meta-llama/llama-3.3-70b-instruct:free" then .ok "• summary"
          else .error (apiErrorOf (handleApiError 429 "free-models-per-day" false mdl)))
        "Thu, 01 Jan 2026" ⟨[], "Thu, 01 Jan 2026"⟩).1
      = .success "• summary" "meta-llama/llama-3.3-70b-instruct:free" true :=
  c1_fallback_on_daily_limit "Thu, 01 Jan 2026" ⟨[], "Thu, 01 Jan 2026"⟩ _
    "google/gemini-2.0-flash-exp:free" "meta-llama/llama-3.3-70b-instruct:free"
    "• summary" "free-models-per-day" false "hello page".toList "key"
    rfl (by decide) (by decide) (Or.inl (by decide)) rfl rfl (by decide) (by decide)

/-! Section: Claim C9: the orchestrator's rate-limit test -/

/-- C9: with cycling enabled, a failed attempt is treated as rate-limited
exactly when `isRateLimitHeuristic` holds, i.e. when the error's
`isRateLimited` flag is set or its message contains one of `"Rate limit"`,
`"daily limit"`, `"exhausted"`, `"429"` (first conjunct, definitional).  When
it is false the loop fails terminally with the error's message; when it is
true — regardless of the underlying HTTP status — the current model is marked
exhausted and, if a next model is available, the loop retries with it against
the marked state. -/
theorem c9_rate_limit_heuristic (oracle : String → Except ApiErr String)
    (d origModel actualModel : String) (st : SWState) (e : ApiErr) (fuel attempts : Nat)
    (hdate : st.lastResetDate = d) (he : oracle actualModel = .error e) :
    (isRateLimitHeuristic e
        = (containsStr "Rate limit" e.message || containsStr "daily limit" e.message ||
          containsStr "exhausted" e.message || containsStr "429" e.message || e.isRateLimited)) ∧
      (isRateLimitHeuristic e = false →
        summarizeAttemptLoop oracle d origModel true (fuel + 1) actualModel st attempts
          = (.failure e.message, st, attempts + 1)) ∧
      (isRateLimitHeuristic e = true →
        (markModelExhausted actualModel st).exhausted.contains actualModel = true ∧
          ∀ next, (getNextAvailableModel d actualModel (markModelExhausted actualModel st)).1
              = some next →
            summarizeAttemptLoop oracle d origModel true (fuel + 1) actualModel st attempts
              = summarizeAttemptLoop oracle d origModel true fuel next
                  (markModelExhausted actualModel st) (attempts + 1)) := by
  have hreset1 : checkDailyReset d (markModelExhausted actualModel st)
      = markModelExhausted actualModel st :=
    checkDailyReset_same (by rw [markModelExhausted_date, hdate])
  refine ⟨rfl, ?_, ?_⟩
  · intro h
    rw [summarizeAttemptLoop_succ, he]
    simp [h]
  · intro h
    refine ⟨markModelExhausted_contains_self _ _, ?_⟩
    intro next hnext
    have hnext1 : nextAvailAux (markModelExhausted actualModel st).exhausted
        (indexOfL actualModel FREE_MODELS) 1 FREE_MODELS.length = some next := by
      simpa [getNextAvailableModel, hreset1] using hnext
    rw [summarizeAttemptLoop_succ, he]
    simp [h, getNextAvailableModel, hreset1, hnext1]

theorem c9_rate_limit_heuristic_witness :
    (isRateLimitHeuristic ⟨"quota exhausted", false⟩
        = (containsStr "Rate limit" (ApiErr.mk "quota exhausted" false).message ||
          containsStr "daily limit" (ApiErr.mk "quota exhausted" false).message ||
          containsStr "exhausted" (ApiErr.mk "quota exhausted" false).message ||
          containsStr "429" (ApiErr.mk "quota exhausted" false).message ||
          (ApiErr.mk "quota exhausted" false).isRateLimited)) ∧
      (isRateLimitHeuristic ⟨"quota exhausted", false⟩ = false →
        summarizeAttemptLoop (fun _ => .error ⟨"quota exhausted", false⟩) "Thu, 01 Jan 2026"
            "google/gemini-2.0-flash-exp:free" true (3 + 1) "google/gemini-2.0-flash-exp:free"
            ⟨[], "Thu, 01 Jan 2026"⟩ 0
          = (.failure (ApiErr.mk "quota exhausted" false).message, ⟨[], "Thu, 01 Jan 2026"⟩, 0 + 1)) ∧
      (isRateLimitHeuristic ⟨"quota exhausted", false⟩ = true →
        (markModelExhausted "google/gemini-2.0-flash-exp:free"
            ⟨[], "Thu, 01 Jan 2026"⟩).exhausted.contains "google/gemini-2.0-flash-exp:free" = true ∧
          ∀ next, (getNextAvailableModel "Thu, 01 Jan 2026" "google/gemini-2.0-flash-exp:free"
              (markModelExhausted "google/gemini-2.0-flash-exp:free"
                ⟨[], "Thu, 01 Jan 2026"⟩)).1 = some next →
            summarizeAttemptLoop (fun _ => .error ⟨"quota exhausted", false⟩) "Thu, 01 Jan 2026"
                "google/gemini-2.0-flash-exp:free" true (3 + 1) "google/gemini-2.0-flash-exp:free"
                ⟨[], "Thu, 01 Jan 2026"⟩ 0
              = summarizeAttemptLoop (fun _ => .error ⟨"quota exhausted", false⟩) "Thu, 01 Jan 2026"
                  "google/gemini-2.0-flash-exp:free" true 3 next
                  (markModelExhausted "google/gemini-2.0-flash-exp:free"
                    ⟨[], "Thu, 01 Jan 2026"⟩) (0 + 1)) :=
  c9_rate_limit_heuristic (fun _ => .error ⟨"quota exhausted", false⟩) "Thu, 01 Jan 2026"
    "google/gemini-2.0-flash-exp:free" "google/gemini-2.0-flash-exp:free"
    ⟨[], "Thu, 01 Jan 2026"⟩ ⟨"quota exhausted", false⟩ 3 0 rfl rfl

/-! Section: Claim C3: lazy daily reset of the exhaustion set -/

/-- C3 (counterexample): the `getModelStatus` message handler serves the
exhausted-set snapshot to the UI without any daily-reset check — it does not
even consult the current day.  With state stamped `"Thu, 01 Jan 2026"` holding
one exhausted model, a snapshot taken on the different day
`"Fri, 02 Jan 2026"` still reports the stale non-empty set (and the stamp is
untouched), contradicting "every read … returns the empty set and updates the
stamp". -/
theorem c3_cex_status_snapshot_stale :
    ("Fri, 02 Jan 2026" : String) ≠ "Thu, 01 Jan 2026" ∧
      (getModelStatus ⟨["google/gemini-2.0-flash-exp:free"], "Thu, 01 Jan 2026"⟩).exhaustedModels
        = ["google/gemini-2.0-flash-exp:free"] ∧
      (getModelStatus
          ⟨["google/gemini-2.0-flash-exp:free"], "Thu, 01 Jan 2026"⟩).exhaustedModels ≠ [] :=
  ⟨by decide, rfl, by decide⟩

/-- C3 (amended): every ExhaustionSet read that goes through `checkDailyReset`
— the available-model queries `getFirstAvailableModel` and
`getNextAvailableModel` — performed on a UTC calendar day different from the
stored day-stamp sees the empty set and the stamp updated to the current day,
regardless of the set's prior contents (in particular the first query then
returns the first catalogue model).  The `getModelStatus` snapshot served to
the UI, however, bypasses the reset check and can serve stale contents. -/
theorem c3_lazy_reset_on_checked_reads (st : SWState) (d : String)
    (hd : d ≠ st.lastResetDate) :
    checkDailyReset d st = ⟨[], d⟩ ∧
      (getFirstAvailableModel d st).2 = ⟨[], d⟩ ∧
      (getFirstAvailableModel d st).1 = some "google/gemini-2.0-flash-exp:free" ∧
      ∀ current, (getNextAvailableModel d current st).2 = ⟨[], d⟩ := by
  have h1 : checkDailyReset d st = ⟨[], d⟩ := by
    simp [checkDailyReset, hd]
  refine ⟨h1, ?_, ?_, ?_⟩
  · simp [getFirstAvailableModel, h1]
  · simp [getFirstAvailableModel, h1]
    rfl
  · intro current
    simp [getNextAvailableModel, h1]

theorem c3_lazy_reset_on_checked_reads_witness :
    checkDailyReset "Fri, 02 Jan 2026"
        ⟨FREE_MODELS, "Thu, 01 Jan 2026"⟩ = ⟨[], "Fri, 02 Jan 2026"⟩ ∧
      (getFirstAvailableModel "Fri, 02 Jan 2026"
          ⟨FREE_MODELS, "Thu, 01 Jan 2026"⟩).2 = ⟨[], "Fri, 02 Jan 2026"⟩ ∧
      (getFirstAvailableModel "Fri, 02 Jan 2026" ⟨FREE_MODELS, "Thu, 01 Jan 2026"⟩).1
        = some "google/gemini-2.0-flash-exp:free" ∧
      ∀ current, (getNextAvailableModel "Fri, 02 Jan 2026" current
          ⟨FREE_MODELS, "Thu, 01 Jan 2026"⟩).2 = ⟨[], "Fri, 02 Jan 2026"⟩ :=
  c3_lazy_reset_on_checked_reads ⟨FREE_MODELS, "Thu, 01 Jan 2026"⟩ "Fri, 02 Jan 2026" (by decide)

/-! Section: Claim C10: the model registry's `resolve` -/

theorem string_append_ne_empty_left {s : String} (t : String) (h : s ≠ "") : s ++ t ≠ "" := by
  intro hc
  apply h
  have hd := congrArg String.data hc
  rw [String.data_append] at hd
  rcases List.append_eq_nil.mp hd with ⟨h1, _⟩
  exact String.ext h1

theorem heuristicBaseName_ne_empty (id : String) (hid : id ≠ "") :
    heuristicBaseName id ≠ "" := by
  unfold heuristicBaseName
  cases hget : (splitOnChar '/' id.toList).get? 1 with
  | none => exact hid
  | some n =>
    show (if n = [] then id else String.mk n) ≠ ""
    by_cases hn : n = []
    · rw [if_pos hn]
      exact hid
    · rw [if_neg hn]
      intro hc
      exact hn (congrArg String.data hc)

/-- C10 (counterexample): `getModelInfo` is not total in the claimed sense —
for the empty identifier the heuristic yields an *empty* display name
(`parts[1] || modelId` falls back to the empty id itself); and free-tier
marking uses `includes(':free')`, not an end-of-string test: the identifier
`"acme/tool:freestyle"` does not end with `":free"` yet is displayed as
`"tool:freestyle (Free)"`. -/
theorem c10_cex_resolve :
    (getModelInfo "").name = "" ∧
      (getModelInfo "acme/tool:freestyle").name = "tool:freestyle (Free)" ∧
      endsWithStr ":free" "acme/tool:freestyle" = false :=
  ⟨by decide, by decide, by decide⟩

/-- C10 (amended): for every *non-empty* model identifier, `getModelInfo`
returns a `ModelInfo` with a non-empty display name; identifiers outside the
catalogue are parsed by splitting on `'/'` (segment before `'/'` as provider)
and the display name is the heuristic base name with `" (Free)"` appended
exactly when the id *contains* `":free"` (not only when it ends with it).
For the empty identifier the display name is empty. -/
theorem c10_resolve_total (id : String) (hid : id ≠ "") :
    (getModelInfo id).name ≠ "" ∧
      ((MODEL_INFO.find? (fun p => p.1 == id)).isNone →
        (getModelInfo id).name
          = heuristicBaseName id ++ (if containsStr ":free" id then " (Free)" else "")) := by
  cases hfind : MODEL_INFO.find? (fun p => p.1 == id) with
  | some p =>
    constructor
    · have hp := List.mem_of_find?_eq_some hfind
      simp only [ MODEL_INFO, List.mem_cons, List.not_mem_nil, or_false] at hp
      rcases hp with rfl | rfl | rfl | rfl | rfl | rfl | rfl | rfl
      all_goals
        simp [getModelInfo, hfind]
    · intro hnone
      simp at hnone
  | none =>
    have hname : (getModelInfo id).name
        = heuristicBaseName id ++ (if containsStr ":free" id then " (Free)" else "") := by
      simp [getModelInfo, hfind]
    refine ⟨?_, fun _ => hname⟩
    rw [hname]
    by_cases hfree : containsStr ":free" id
    · rw [if_pos hfree]
      intro hc
      have hd := congrArg String.data hc
      rw [String.data_append] at hd
      rcases List.append_eq_nil.mp hd with ⟨_, h2⟩
      simp at h2
    · rw [if_neg hfree]
      exact string_append_ne_empty_left "" (heuristicBaseName_ne_empty id hid)

theorem c10_resolve_total_witness :
    (getModelInfo "acme/widget:free").name ≠ "" ∧
      ((MODEL_INFO.find? (fun p => p.1 == "acme/widget:free")).isNone →
        (getModelInfo "acme/widget:free").name
          = heuristicBaseName "acme/widget:free"
              ++ (if containsStr ":free" "acme/widget:free" then " (Free)" else "")) :=
  c10_resolve_total "acme/widget:free" (by decide)

/-! Section: Claim C8: the single final merge call -/

theorem mapIdx2_length (f : Nat → List Char → List Char) :
    ∀ (i : Nat) (l : List (List Char)), (mapIdx2 f i l).length = l.length := by
  intro i l
  induction l generalizing i with
  | nil => rfl
  | cons c cs ih => simp [mapIdx2, ih]

/-- C8: on the success path, whenever chunking produces more than one chunk,
`summarizeWithChunking` makes exactly one final `combineSummaries` merge call —
unless the combined chunk summaries (joined with the `"\n\n---\n\n"` separator)
already exceed twice the chunk budget, in which case the summaries are joined
verbatim with `"\n\n"` and no merge call is made. -/
theorem c8_single_merge_call (chunkSummarizer : Nat → List Char → List Char)
    (summaryCombiner : List Char → List Char) (text : List Char) (chunkSize : Nat)
    (hmulti : 1 < (splitIntoChunks text chunkSize).length) :
    ((summarizeWithChunking chunkSummarizer summaryCombiner text chunkSize).mergeCalls
        = if (joinWith "\n\n---\n\n".toList
              (mapIdx2 chunkSummarizer 0 (splitIntoChunks text chunkSize))).length
            > chunkSize * 2 then 0 else 1) ∧
      ((joinWith "\n\n---\n\n".toList
            (mapIdx2 chunkSummarizer 0 (splitIntoChunks text chunkSize))).length
          > chunkSize * 2 →
        (summarizeWithChunking chunkSummarizer summaryCombiner text chunkSize).summary
          = joinWith "\n\n".toList (mapIdx2 chunkSummarizer 0 (splitIntoChunks text chunkSize))) ∧
      (¬ (joinWith "\n\n---\n\n".toList
            (mapIdx2 chunkSummarizer 0 (splitIntoChunks text chunkSize))).length
          > chunkSize * 2 →
        (summarizeWithChunking chunkSummarizer summaryCombiner text chunkSize).summary
          = summaryCombiner (joinWith "\n\n---\n\n".toList
              (mapIdx2 chunkSummarizer 0 (splitIntoChunks text chunkSize)))) := by
  have hlen : ¬ (mapIdx2 chunkSummarizer 0 (splitIntoChunks text chunkSize)).length = 1 := by
    rw [mapIdx2_length]
    omega
  have hbase : summarizeWithChunking chunkSummarizer summaryCombiner text chunkSize
      = if (joinWith "\n\n---\n\n".toList
            (mapIdx2 chunkSummarizer 0 (splitIntoChunks text chunkSize))).length
          > chunkSize * 2 then
          ⟨joinWith "\n\n".toList (mapIdx2 chunkSummarizer 0 (splitIntoChunks text chunkSize)),
            (splitIntoChunks text chunkSize).length, 0⟩
        else
          ⟨summaryCombiner (joinWith "\n\n---\n\n".toList
              (mapIdx2 chunkSummarizer 0 (splitIntoChunks text chunkSize))),
            (splitIntoChunks text chunkSize).length, 1⟩ := by
    simp only [summarizeWithChunking]
    rw [if_neg hlen]
  refine ⟨?_, fun hc => ?_, fun hn => ?_⟩
  · rw [hbase]
    by_cases hc : (joinWith "\n\n---\n\n".toList
        (mapIdx2 chunkSummarizer 0 (splitIntoChunks text chunkSize))).length > chunkSize * 2
    · rw [if_pos hc, if_pos hc]
    · rw [if_neg hc, if_neg hc]
  · rw [hbase, if_pos hc]
  · rw [hbase, if_neg hn]

theorem c8_single_merge_call_witness :
    ((summarizeWithChunking (fun _ _ => "x".toList) (fun c => c) "ab cd".toList 3).mergeCalls
        = if (joinWith "\n\n---\n\n".toList
              (mapIdx2 (fun _ _ => "x".toList) 0 (splitIntoChunks "ab cd".toList 3))).length
            > 3 * 2 then 0 else 1) ∧
      ((joinWith "\n\n---\n\n".toList
            (mapIdx2 (fun _ _ => "x".toList) 0 (splitIntoChunks "ab cd".toList 3))).length
          > 3 * 2 →
        (summarizeWithChunking (fun _ _ => "x".toList) (fun c => c) "ab cd".toList 3).summary
          = joinWith "\n\n".toList
              (mapIdx2 (fun _ _ => "x".toList) 0 (splitIntoChunks "ab cd".toList 3))) ∧
      (¬ (joinWith "\n\n---\n\n".toList
            (mapIdx2 (fun _ _ => "x".toList) 0 (splitIntoChunks "ab cd".toList 3))).length
          > 3 * 2 →
        (summarizeWithChunking (fun _ _ => "x".toList) (fun c => c) "ab cd".toList 3).summary
          = (fun c => c) (joinWith "\n\n---\n\n".toList
              (mapIdx2 (fun _ _ => "x".toList) 0 (splitIntoChunks "ab cd".toList 3)))) :=
  c8_single_merge_call (fun _ _ => "x".toList) (fun c => c) "ab cd".toList 3 (by decide)

end PageSummariser
